import Mathlib

/-!
# Verification of the JSON visualizer graph core (`src/Visualizer/JsonGraph.jsx`)

Shallow embedding of the graph-construction and interaction layer of the
JSON visualizer:

* `traverse` / `build` — the depth/size-bounded pre-order traversal that turns a
  parsed JSON value into nodes, edges and a parent→children adjacency map
  (`processGraph` in the source).
* `onNodeClick` — collapse/expand with BFS descendant collection.
* `handleSearch` — label search with ancestor expansion.
* `applyVirtualization` — viewport-based node visibility recomputation.

Modelling conventions:

* A parsed JSON value is the inductive `Json`; numbers are restricted to
  integers (no claim depends on float formatting).  `JSON.parse` is a host
  primitive, modelled as an `Option Json` argument (`none` = parse exception).
* JavaScript arrays (`tempNodes.push`) become list appends; JS objects used as
  string-keyed maps become association lists in insertion order; JS `Set`
  becomes a duplicate-free list (`setInsert` / `setErase`).
* The unbounded JS `while` loops (BFS queues, parent walks) take an explicit
  fuel argument that is large enough on every tree-shaped adjacency map; on
  such maps the fuelled function agrees with the JS loop.
* The dagre layout call only assigns coordinates and is an external library;
  positions therefore stay at their initial `(0, 0)`.  Constant style objects
  (edge stroke) are not modelled; the node `outline` style is, because search
  highlighting writes it.
-/

set_option maxRecDepth 100000
set_option maxHeartbeats 4000000

/-- A parsed JSON value (the result of `JSON.parse`). -/
inductive Json where
  | null
  | bool (b : Bool)
  | num (n : Int)
  | str (s : String)
  | arr (items : List Json)
  | obj (entries : List (String × Json))

/-- JS `value !== null && typeof value === 'object'`. -/
def Json.isObjectLike : Json → Bool
  | .arr _ => true
  | .obj _ => true
  | _ => false

/-- JS `s.substring(0, n)` (by characters; the values involved are within
the basic plane, where JS code units and characters agree). -/
def jsTake (s : String) (n : Nat) : String := ⟨s.data.take n⟩

/-- JS `String(value)` on a non-object value. -/
def jsScalarString : Json → String
  | .null => "null"
  | .bool b => if b then "true" else "false"
  | .num n => toString n
  | .str s => s
  | .arr _ => ""
  | .obj _ => ""

/-- The `data` payload of a graph node.  The synthetic "more items" nodes are
created without `isObject`, `hasChildren` and `parentId` in the source; the
missing (undefined, hence falsy) fields are modelled as `false` / `none`. -/
structure NodeData where
  label : String
  isObject : Bool
  hasChildren : Bool
  collapsedHidden : Bool
  parentId : Option String
deriving Repr, DecidableEq

/-- A React Flow node as produced by `processGraph`.  `hidden` starts out
absent (falsy) in the source, modelled as `false`. -/
structure GraphNode where
  id : String
  data : NodeData
  posX : Int
  posY : Int
  type : String
  className : String
  hidden : Bool
  outline : String
deriving Repr, DecidableEq

/-- A React Flow edge as produced by `processGraph`. -/
structure GraphEdge where
  id : String
  source : String
  target : String
  type : String
  animated : Bool
  hidden : Bool
deriving Repr, DecidableEq

/-- The adjacency map `hierarchy`: parent id → ordered child ids, kept as an
association list in insertion order (JS object key order). -/
abbrev Hier := List (String × List String)

/-- JS `hierarchy[k]` (`undefined` = `none`). -/
def hierFind : Hier → String → Option (List String)
  | [], _ => none
  | e :: rest, k => if e.1 == k then some e.2 else hierFind rest k

/-- JS `nodeHierarchy[k] || []`. -/
def childrenOf (h : Hier) (k : String) : List String :=
  (hierFind h k).getD []

/-- JS `if (!hierarchy[k]) hierarchy[k] = []`. -/
def hierEnsure (h : Hier) (k : String) : Hier :=
  if (hierFind h k).isSome then h else h ++ [(k, [])]

/-- JS `hierarchy[k].push(c)` (no-op when the key is absent; the source always
ensures the entry first). -/
def hierPush : Hier → String → String → Hier
  | [], _, _ => []
  | e :: rest, k, c => (if e.1 == k then (e.1, e.2 ++ [c]) else e) :: hierPush rest k c

/-- Graph limits from the source. -/
def MAX_NODES : Nat := 3000
def MAX_DEPTH : Nat := 10
def MAX_ARRAY_ITEMS : Nat := 50
def MAX_OBJECT_PROPS : Nat := 50

/-- The id `node-<i>` generated from the node counter. -/
def nodeId (i : Nat) : String := "node-" ++ Nat.repr i

/-- The mutable state threaded through `traverse`: the `tempNodes` and
`tempEdges` arrays, the `hierarchy` object, `nodeIdCounter` and the
`isLimitReached` flag. -/
structure TState where
  nodes : List GraphNode
  edges : List GraphEdge
  hier : Hier
  counter : Nat
  limitReached : Bool
deriving Repr, DecidableEq

/-- Build the edge object pushed by `traverse`. -/
def mkEdge (src tgt : String) : GraphEdge :=
  { id := "edge-" ++ src ++ "-" ++ tgt
    source := src
    target := tgt
    type := "smoothstep"
    animated := true
    hidden := false }

/-- The node record `traverse` pushes for the value visited with the given
key, parent and fresh id. -/
def mkNodeRec (key : String) (value : Json) (parentId : Option String)
    (currentId : String) : GraphNode :=
  let isObj := value.isObjectLike
  { id := currentId
    data :=
      { label :=
          if isObj then
            key ++ " " ++ (match value with | .arr _ => "[]" | _ => "{}")
          else
            key ++ ": " ++ jsTake (jsScalarString value) 50
        isObject := isObj
        hasChildren := isObj
        collapsedHidden := false
        parentId := parentId }
    posX := 0, posY := 0, type := "default"
    className := if isObj then "node-object" else "node-primitive"
    hidden := false, outline := "none" }

/-- The non-recursive prefix of a `traverse` call after the entry guard:
push the node under the fresh id `nodeId st.counter`, ensure its (empty)
adjacency entry, and, when there is a parent, append the child to the
parent's entry and push the edge. -/
def pushNode (key : String) (value : Json) (parentId : Option String)
    (st : TState) : TState :=
  let currentId := nodeId st.counter
  let node := mkNodeRec key value parentId currentId
  let st1 : TState :=
    { st with counter := st.counter + 1, nodes := st.nodes ++ [node] }
  let st2 : TState := { st1 with hier := hierEnsure st1.hier currentId }
  match parentId with
  | none => st2
  | some pid =>
    { st2 with
      hier := hierPush (hierEnsure st2.hier pid) pid currentId
      edges := st2.edges ++ [mkEdge pid currentId] }

/-- The synthetic "more" node record. -/
def mkMoreRec (moreId : String) (label : String) : GraphNode :=
  { id := moreId
    data := { label := label, isObject := false, hasChildren := false,
              collapsedHidden := false, parentId := none }
    posX := 0, posY := 0, type := "default"
    className := "node-primitive", hidden := false, outline := "none" }

/-- Push the truncation ("... N more items/properties") node and its edge —
note: no node-limit check happens here. -/
def pushMoreNode (currentId : String) (label : String) (st : TState) : TState :=
  let moreId := nodeId st.counter
  { st with
    counter := st.counter + 1
    nodes := st.nodes ++ [mkMoreRec moreId label]
    edges := st.edges ++ [mkEdge currentId moreId] }

/-- The recursive `traverse(key, value, parentId, depth)` of `processGraph`:
pre-order DFS creating one node per visited value, an edge from the parent,
and an adjacency entry, with the node/depth guard at entry and the
container-size truncation (plus "more" node) in the recursive step.

The JS recursion is depth-bounded: a call recurses only when
`depth < MAX_DEPTH`, so no frame ever sits deeper than `MAX_DEPTH + 1`.
The Lean definition therefore recurses structurally on a `frames` fuel
counting the remaining frames; `build` starts it above that bound, so the
0-fuel branch is unreachable from the root call.  The JS `for` loops over
the first `itemsToShow`/`propsToShow` entries become folds over
`List.take`, with `List.enum` supplying the array index. -/
def traverse : Nat → String → Json → Option String → Nat → TState → TState
  | 0, _, _, _, _, st => st
  | Nat.succ frames, key, value, parentId, depth, st =>
    if st.counter ≥ MAX_NODES || depth > MAX_DEPTH then
      { st with limitReached := true }
    else
      let currentId := nodeId st.counter
      let st3 := pushNode key value parentId st
      if value.isObjectLike && decide (st3.counter < MAX_NODES) &&
          decide (depth < MAX_DEPTH) then
        match value with
        | .arr items =>
          let itemsToShow := min items.length MAX_ARRAY_ITEMS
          let st4 := (items.take itemsToShow).enum.foldl
            (fun acc iv =>
              traverse frames ("[" ++ Nat.repr iv.1 ++ "]") iv.2 (some currentId)
                (depth + 1) acc)
            st3
          if items.length > itemsToShow then
            pushMoreNode currentId
              ("... " ++ Nat.repr (items.length - itemsToShow) ++ " more items") st4
          else st4
        | .obj entries =>
          let propsToShow := min entries.length MAX_OBJECT_PROPS
          let st4 := (entries.take propsToShow).foldl
            (fun acc kv => traverse frames kv.1 kv.2 (some currentId) (depth + 1) acc)
            st3
          if entries.length > propsToShow then
            pushMoreNode currentId
              ("... " ++ Nat.repr (entries.length - propsToShow) ++ " more properties")
              st4
          else st4
        | _ => st3
      else st3

/-- The empty initial traversal state. -/
def initTState : TState :=
  { nodes := [], edges := [], hier := [], counter := 0, limitReached := false }

/-- `traverse('Root', parsedData, null, 0)` on the empty state; the frame
fuel strictly exceeds the deepest reachable frame (`MAX_DEPTH + 1`). -/
def build (v : Json) : TState := traverse (MAX_DEPTH + 2) "Root" v none 0 initTState

/-- The global warning node unshifted when `isLimitReached`; `shown` is the
node-list length before the unshift. -/
def warningNode (shown : Nat) : GraphNode :=
  { id := "node-warning"
    data := { label := "⚠️ Large JSON: Showing " ++ Nat.repr shown ++
                " nodes (Limit: " ++ Nat.repr MAX_NODES ++ ")",
              isObject := false, hasChildren := false,
              collapsedHidden := false, parentId := none }
    posX := 0, posY := 0, type := "default"
    className := "node-warning", hidden := false, outline := "none" }

/-- `if (isLimitReached) tempNodes.unshift(warning)`. -/
def withWarning (st : TState) : List GraphNode :=
  if st.limitReached then warningNode st.nodes.length :: st.nodes else st.nodes

/-- The pass adding the initial `▼ ` indicator to object nodes with children
(after the external layout call, which the model treats as the identity on
positions). -/
def addIndicators (h : Hier) (ns : List GraphNode) : List GraphNode :=
  ns.map (fun n =>
    if n.data.hasChildren &&
        (match hierFind h n.id with | some cs => decide (cs.length > 0) | none => false) then
      { n with data := { n.data with label := "▼ " ++ n.data.label } }
    else n)

/-- The component state touched by the graph core: React Flow nodes/edges,
`nodeHierarchy`, `collapsedNodes`, `searchQuery`, `matchedNodes`,
`currentMatchIndex`. -/
structure VizState where
  nodes : List GraphNode
  edges : List GraphEdge
  hierarchy : Hier
  collapsed : List String
  searchQuery : String
  matchedNodes : List String
  currentMatchIndex : Int
deriving Repr, DecidableEq

/-- The initial component state. -/
def initViz : VizState :=
  { nodes := [], edges := [], hierarchy := [], collapsed := [],
    searchQuery := "", matchedNodes := [], currentMatchIndex := 0 }

/-- `processGraph(jsonString)`: on a parse exception the `catch` only logs, so
the state is untouched; otherwise nodes, edges and the adjacency map are
replaced wholesale (and only those — `collapsedNodes` and the search state
are not written here). -/
def processGraphUpd (st : VizState) (parseResult : Option Json) : VizState :=
  match parseResult with
  | none => st
  | some v =>
    let t := build v
    { st with
      nodes := addIndicators t.hier (withWarning t)
      edges := t.edges
      hierarchy := t.hier }

/-- The `useEffect` on `data`: clear the search state, then `processGraph`. -/
def dataChangeEffect (st : VizState) (parseResult : Option Json) : VizState :=
  processGraphUpd
    { st with searchQuery := "", matchedNodes := [], currentMatchIndex := 0 }
    parseResult

/-! ## Collapse / expand (`onNodeClick`) -/

/-- JS `Set.add` on a set represented as a duplicate-free list. -/
def setInsert (l : List String) (x : String) : List String :=
  if l.contains x then l else l ++ [x]

/-- JS `Set.delete`. -/
def setErase (l : List String) (x : String) : List String :=
  l.filter (fun y => y != x)

/-- `label.replace(/^[▼▶]\s/, '')`: drop a leading collapse glyph followed
by one whitespace character. -/
def stripIndicator (s : String) : String :=
  match s.data with
  | c :: sp :: rest =>
    if (c == '▼' || c == '▶') &&
        (sp == ' ' || sp == '\t' || sp == '\n' || sp == '\r') then
      ⟨rest⟩
    else s
  | _ => s

/-- JS `String.prototype.includes` on character lists. -/
def jsIncludesList : List Char → List Char → Bool
  | [], pat => pat.isEmpty
  | l@(_ :: t), pat => pat.isPrefixOf l || jsIncludesList t pat

/-- JS `s.includes(pat)`. -/
def jsIncludes (s pat : String) : Bool := jsIncludesList s.data pat.data

/-- JS `c.toLowerCase()` on one character (ASCII case mapping; the labels and
queries involved are ASCII apart from the indicator glyphs, which have no
case). -/
def jsLowerChar (c : Char) : Char :=
  if c.toNat ≥ 65 && c.toNat ≤ 90 then Char.ofNat (c.toNat + 32) else c

/-- JS `s.toLowerCase()`. -/
def jsToLower (s : String) : String := ⟨s.data.map jsLowerChar⟩

/-- JS `!query.trim()`: the string trims to empty iff it is all
whitespace. -/
def jsTrimEmpty (s : String) : Bool :=
  s.data.all (fun c => c == ' ' || c == '\t' || c == '\n' || c == '\r')

/-- Fuel large enough for every BFS over a tree-shaped adjacency map: one
dequeue for the start node plus at most one per child occurrence. -/
def descFuel (h : Hier) : Nat :=
  1 + (h.map (fun e => e.2.length)).sum

/-- The queue loop of `getAllDescendants`: dequeue, append the children to the
result and to the queue.  The JS loop has no fuel; on tree-shaped maps the
fuel never runs out. -/
def bfsDesc (h : Hier) : List String → Nat → List String
  | [], _ => []
  | _ :: _, 0 => []
  | q :: qs, Nat.succ f =>
    let cs := childrenOf h q
    cs ++ bfsDesc h (qs ++ cs) f

/-- `getAllDescendants(id)` from `onNodeClick`. -/
def getAllDescendants (h : Hier) (nid : String) : List String :=
  bfsDesc h [nid] (descFuel h)

/-- Whether the fuelled BFS drains its queue, i.e. agrees with the unbounded
JS loop. -/
def bfsDone (h : Hier) : List String → Nat → Bool
  | [], _ => true
  | _ :: _, 0 => false
  | q :: qs, Nat.succ f => bfsDone h (qs ++ childrenOf h q) f

/-- The per-node update `onNodeClick` maps over the node list: hide/show the
BFS descendants and flip the clicked node's label indicator. -/
def clickNodeUpd (descendants : List String) (nid : String)
    (isCurrentlyCollapsed : Bool) (n : GraphNode) : GraphNode :=
  if descendants.contains n.id then
    { n with hidden := !isCurrentlyCollapsed
             data := { n.data with collapsedHidden := !isCurrentlyCollapsed } }
  else if n.id == nid && n.data.hasChildren then
    { n with data := { n.data with
        label := (if isCurrentlyCollapsed then "▼ " else "▶ ") ++
          stripIndicator n.data.label } }
  else n

/-- The per-edge update `onNodeClick` maps over the edge list: hide/show
every edge with an endpoint among the descendants. -/
def clickEdgeUpd (descendants : List String) (isCurrentlyCollapsed : Bool)
    (e : GraphEdge) : GraphEdge :=
  if descendants.contains e.target || descendants.contains e.source then
    { e with hidden := !isCurrentlyCollapsed }
  else e

/-- `onNodeClick`: no-op unless the clicked node's class contains
`node-object`; otherwise toggle the id in `collapsedNodes`, set `hidden` and
`data.collapsedHidden` on all BFS descendants, flip the clicked node's label
indicator, and hide/show every edge with an endpoint among the descendants. -/
def onNodeClick (st : VizState) (nid : String) : VizState :=
  match st.nodes.find? (fun n => n.id == nid) with
  | none => st
  | some node =>
    if node.className == "" || !(jsIncludes node.className "node-object") then st
    else
      let isCurrentlyCollapsed := st.collapsed.contains nid
      let descendants := getAllDescendants st.hierarchy nid
      { st with
        collapsed :=
          if isCurrentlyCollapsed then setErase st.collapsed nid
          else setInsert st.collapsed nid
        nodes := st.nodes.map (clickNodeUpd descendants nid isCurrentlyCollapsed)
        edges := st.edges.map (clickEdgeUpd descendants isCurrentlyCollapsed) }

/-- A sequence of clicks. -/
def applyClicks (st : VizState) (clicks : List String) : VizState :=
  clicks.foldl onNodeClick st

/-! ## Search (`handleSearch`) -/

/-- `findParent(childId)`: first adjacency key whose child list contains the
id. -/
def findParentOf (h : Hier) (child : String) : Option String :=
  (h.find? (fun e => e.2.contains child)).map (·.1)

/-- The `while (currentParent)` walk collecting a node and all its ancestors;
fuelled, with fuel exceeding any tree height. -/
def walkUp (h : Hier) : Nat → String → List String
  | 0, cur => [cur]
  | Nat.succ f, cur =>
    cur :: (match findParentOf h cur with
            | none => []
            | some p => walkUp h f p)

/-- The linear scan over nodes: ids whose indicator-stripped label contains
the lowercased query (nodes with a falsy label are skipped). -/
def searchMatches (nodes : List GraphNode) (lowerQuery : String) : List String :=
  nodes.filterMap (fun n =>
    if n.data.label == "" then none
    else if jsIncludes (jsToLower (stripIndicator n.data.label)) lowerQuery then
      some n.id
    else none)

/-- The `nodesToExpand` set: for every match, every adjacency key whose
children contain the match, together with all its ancestors.  Represented as
a list with the same membership as the JS `Set`. -/
def searchExpand (nodes : List GraphNode) (h : Hier) (lowerQuery : String) :
    List String :=
  (searchMatches nodes lowerQuery).flatMap (fun mid =>
    (h.filter (fun e => e.2.contains mid)).flatMap (fun e =>
      walkUp h (h.length + 1) e.1))

/-- The inner BFS of the search re-render pass: does `target` occur among the
children of any dequeued node (i.e. is it a strict descendant of the queue
seed)? -/
def searchHit (h : Hier) (target : String) : List String → Nat → Bool
  | [], _ => false
  | _ :: _, 0 => false
  | q :: qs, Nat.succ f =>
    let ks := childrenOf h q
    if ks.contains target then true else searchHit h target (qs ++ ks) f

/-- The `shouldBeHidden` recomputation of the search re-render pass: when at
least one ancestor is being force-expanded, a node is logically hidden iff it
is a BFS descendant of some collapsed id that is not being expanded;
otherwise the flag is simply `false`. -/
def searchShouldHide (h : Hier) (collapsed expand : List String)
    (nid : String) : Bool :=
  if expand.length > 0 then
    collapsed.any (fun c =>
      if expand.contains c then false
      else searchHit h nid [c] (descFuel h))
  else false

/-- The per-node update of the search re-render pass: recomputed hidden
flags plus match highlighting. -/
def searchNodeUpd (h : Hier) (collapsed expand matchIds : List String)
    (n : GraphNode) : GraphNode :=
  let shouldBeHidden := searchShouldHide h collapsed expand n.id
  { n with
    hidden := shouldBeHidden
    data := { n.data with collapsedHidden := shouldBeHidden }
    className :=
      if matchIds.contains n.id then
        if n.data.isObject then "node-object node-search-match"
        else "node-primitive node-search-match"
      else
        if n.data.isObject then "node-object" else "node-primitive"
    outline :=
      if matchIds.contains n.id then "3px solid #fbbf24" else "none" }

/-- `handleSearch(query)`. -/
def handleSearch (st : VizState) (query : String) : VizState :=
  let st0 : VizState := { st with searchQuery := query }
  if jsTrimEmpty query then
    { st0 with
      matchedNodes := []
      currentMatchIndex := 0
      nodes := st0.nodes.map (fun n =>
        { n with
          className := if n.data.isObject then "node-object" else "node-primitive"
          outline := "none" }) }
  else
    let lowerQuery := jsToLower query
    let matchIds := searchMatches st0.nodes lowerQuery
    let nodesToExpand := searchExpand st0.nodes st0.hierarchy lowerQuery
    { st0 with
      matchedNodes := matchIds
      currentMatchIndex := if matchIds.length > 0 then 0 else -1
      collapsed :=
        if nodesToExpand.length > 0 then
          st0.collapsed.filter (fun c => !(nodesToExpand.contains c))
        else st0.collapsed
      nodes := st0.nodes.map
        (searchNodeUpd st0.hierarchy st0.collapsed nodesToExpand matchIds) }

/-! ## Viewport virtualization (the debounced `useEffect` on `viewport`) -/

/-- The expanded viewport rectangle, in logical coordinates. -/
structure Rect where
  x : Int
  y : Int
  w : Int
  h : Int
deriving Repr, DecidableEq

/-- Bounding-box intersection of a node (width/height fall back to 220×60,
as `n.width || 220` does on nodes that were never measured). -/
def nodeVisibleInRect (n : GraphNode) (r : Rect) : Bool :=
  let nw : Int := 220
  let nh : Int := 60
  n.posX + nw > r.x && n.posX < r.x + r.w && n.posY + nh > r.y && n.posY < r.y + r.h

/-- `nodeMap.get` over the node list. -/
def nodeMapFind (ns : List GraphNode) (nid : String) : Option GraphNode :=
  ns.find? (fun n => n.id == nid)

/-- The ancestry-protection `while` walk: add parents of a visible node until
an already-visible one (or the root) is reached.  Fuelled by the node count. -/
def climb (ns : List GraphNode) : Nat → List String → Option GraphNode → List String
  | 0, acc, _ => acc
  | Nat.succ f, acc, curr =>
    match curr with
    | none => acc
    | some c =>
      match c.data.parentId with
      | none => acc
      | some pid =>
        if acc.contains pid then acc
        else climb ns f (acc ++ [pid]) (nodeMapFind ns pid)

/-- The virtualization pass: skipped below 100 nodes; computes the buffered
viewport rectangle from the viewport translation/zoom and the renderer size,
marks intersecting (and always the root / `node-warning`-typed) nodes
visible, closes the visible set under ancestors, and rewrites only the node
`hidden` flags (edges are not touched by this effect).  JS float division is
modelled by integer division; every concrete instance below uses `zoom = 1`,
where the two agree. -/
def applyVirtualization (st : VizState) (vx vy zoom w h : Int) : VizState :=
  if st.nodes.length < 100 then st
  else
    let buffer : Int := 800
    let r : Rect :=
      { x := (-vx) / zoom - buffer
        y := (-vy) / zoom - buffer
        w := w / zoom + buffer * 2
        h := h / zoom + buffer * 2 }
    let visibleIds := st.nodes.filterMap (fun n =>
      if n.id == "node-0" || n.type == "node-warning" then some n.id
      else if n.data.collapsedHidden then none
      else if nodeVisibleInRect n r then some n.id
      else none)
    let finalVisible := visibleIds.foldl
      (fun acc vid => climb st.nodes st.nodes.length acc (nodeMapFind st.nodes vid))
      visibleIds
    { st with
      nodes := st.nodes.map (fun n =>
        if n.data.collapsedHidden then
          if n.hidden then n else { n with hidden := true }
        else
          let shouldHide := !(finalVisible.contains n.id)
          if n.hidden != shouldHide then { n with hidden := shouldHide } else n) }

/-! ## Derived notions used in the statements -/

mutual

/-- Number of JSON values (scalars and containers) in a document. -/
def totalValues : Json → Nat
  | .arr items => 1 + totalValuesList items
  | .obj entries => 1 + totalValuesProps entries
  | _ => 1

/-- Sum of `totalValues` over array items. -/
def totalValuesList : List Json → Nat
  | [] => 0
  | v :: rest => totalValues v + totalValuesList rest

/-- Sum of `totalValues` over object entries. -/
def totalValuesProps : List (String × Json) → Nat
  | [] => 0
  | (_, v) :: rest => totalValues v + totalValuesProps rest

end

mutual

/-- The input fits all four hard limits structurally when rooted at depth `d`:
every container sits strictly above the depth cap and is within its
per-container entry cap. -/
def withinCaps : Nat → Json → Bool
  | d, .arr items =>
    decide (d < MAX_DEPTH) && decide (items.length ≤ MAX_ARRAY_ITEMS) &&
      withinCapsList (d + 1) items
  | d, .obj entries =>
    decide (d < MAX_DEPTH) && decide (entries.length ≤ MAX_OBJECT_PROPS) &&
      withinCapsProps (d + 1) entries
  | _, _ => true

/-- `withinCaps` over array items. -/
def withinCapsList (d : Nat) : List Json → Bool
  | [] => true
  | v :: rest => withinCaps d v && withinCapsList d rest

/-- `withinCaps` over object entries. -/
def withinCapsProps (d : Nat) : List (String × Json) → Bool
  | [] => true
  | (_, v) :: rest => withinCaps d v && withinCapsProps d rest

end

/-- Number of warning nodes in a node list. -/
def warningCount (ns : List GraphNode) : Nat :=
  ns.countP (fun n => n.className == "node-warning")

/-- The keys of the adjacency map. -/
def hkeys (h : Hier) : List String := h.map (·.1)

/-- All child occurrences of the adjacency map, in order. -/
def allKids (h : Hier) : List String := (h.map (·.2)).flatten

/-- The ids of a node list. -/
def idsOf (ns : List GraphNode) : List String := ns.map (·.id)

/-- The `hidden` flag of the node with the given id (`false` when absent). -/
def hiddenOf (st : VizState) (nid : String) : Bool :=
  match st.nodes.find? (fun n => n.id == nid) with
  | some n => n.hidden
  | none => false

/-- The collapse guard of `onNodeClick` rejects this id: either no node has
it, or the node's class is falsy or lacks `node-object`. -/
def clickGuardFails (st : VizState) (nid : String) : Bool :=
  match st.nodes.find? (fun n => n.id == nid) with
  | some n => n.className == "" || !(jsIncludes n.className "node-object")
  | none => true

/-! ## Concrete inputs for counterexamples and witnesses -/

/-- `{"a": {"b": 1}}`. -/
def jsonAB : Json := .obj [("a", .obj [("b", .num 1)])]

/-- `{"a": {"b": {"c": 1}}}`. -/
def jsonABC : Json := .obj [("a", .obj [("b", .obj [("c", .num 1)])])]

/-- An array of 60 numbers (over the 50-item cap). -/
def arr60 : Json := .arr (List.replicate 60 (.num 0))

/-- An array of 25 four-element arrays: 126 nodes, within every per-container
cap, and enough nodes for virtualization to engage. -/
def bigJson : Json := .arr (List.replicate 25 (.arr (List.replicate 4 (.num 0))))

/-- Arrays nested 13 values deep (depths 0..12, beyond the depth cap). -/
def deepJson12 : Json :=
  .arr [.arr [.arr [.arr [.arr [.arr [.arr [.arr [.arr [.arr [.arr [.arr
    [.num 0]]]]]]]]]]]]

/-- The state right after parsing `jsonABC` and collapsing `b` (node-2):
its child `c` (node-3) is hidden. -/
def stPre : VizState := onNodeClick (dataChangeEffect initViz (some jsonABC)) "node-2"

/-- `stPre` after searching for a string matching no label. -/
def stSearchZ : VizState := handleSearch stPre "zzz"

/-- A traversal state two ids below the node cap, as reached mid-way through a
large document (only the fields `traverse` consults are relevant). -/
def stNearCap : TState :=
  { nodes := [], edges := [], hier := [("node-0", [])], counter := 2998,
    limitReached := false }

/-- The parsed `bigJson` component state. -/
def vizBig : VizState := dataChangeEffect initViz (some bigJson)

/-- `vizBig` after a virtualization pass with the viewport panned far away
(zoom 1, a 1000×1000 renderer). -/
def vizBigVirt : VizState := applyVirtualization vizBig (-100000) 0 1 1000 1000

/-! # Theorems -/

/-- C9: a failed JSON parse is absorbed by the `catch` before any state
setter runs, so the graph-construction call leaves the previously displayed
graph state — nodes, edges and the adjacency map, indeed the whole component
state it owns — exactly unchanged; there is no partial application. -/
theorem c9_parse_failure_graph_untouched (st : VizState) :
    processGraphUpd st none = st := rfl

/-- C10: the collapse-toggle click handler is a no-op on every node whose
class name does not contain `node-object` — scalar/primitive nodes, the
synthetic "... N more items/properties" nodes, and the warning node:
CollapsedSet, all node hidden flags and labels, and all edge hidden flags
are completely unchanged. -/
theorem c10_noncontainer_click_noop (st : VizState) (nid : String)
    (h : clickGuardFails st nid = true) : onNodeClick st nid = st := by
  unfold onNodeClick
  unfold clickGuardFails at h
  cases hf : st.nodes.find? (fun n => n.id == nid) with
  | none => rfl
  | some n =>
    rw [hf] at h
    have h' : (n.className == "" || !jsIncludes n.className "node-object") = true := h
    simp only [h', if_true]

/-- C10 witness: clicking the scalar leaf `b: 1` of the parsed
`{"a": {"b": 1}}` changes nothing. -/
theorem c10_witness :
    onNodeClick (dataChangeEffect initViz (some jsonAB)) "node-2" =
      dataChangeEffect initViz (some jsonAB) :=
  c10_noncontainer_click_noop _ _ (by decide)

/-- C2 (amended): a successful new parse replaces nodes, edges and the
adjacency map wholesale and resets the search query, the MatchList and the
current match index, and freshly built nodes carry no search highlighting;
CollapsedSet, however, is NOT cleared — it carries over unchanged across the
parse. -/
theorem c2_amended_new_parse (st : VizState) (v : Json) :
    dataChangeEffect st (some v) =
      { nodes := addIndicators (build v).hier (withWarning (build v))
        edges := (build v).edges
        hierarchy := (build v).hier
        collapsed := st.collapsed
        searchQuery := ""
        matchedNodes := []
        currentMatchIndex := 0 } := rfl

/-- C2 counterexample: collapse `a` in the parsed `{"a":{"b":1}}`, then parse
a new document; `collapsedNodes` still holds the stale id, refuting "a new
parse clears CollapsedSet". -/
theorem c2_counterexample :
    (dataChangeEffect (onNodeClick (dataChangeEffect initViz (some jsonAB)) "node-1")
        (some jsonABC)).collapsed = ["node-1"] := by decide

/-- C1 counterexample: `arr60` (an array of 60 numbers) keeps the traversal
under the node cap and the depth cap — no limit is hit — yet the builder
emits 52 nodes for the 61 JSON values: the ten items beyond the per-container
cap get no node, and a synthetic more-node (with its own edge) is added, so
the output is not "one node per scalar value, one edge per parent-child
relationship". -/
theorem c1_counterexample :
    (build arr60).limitReached = false ∧ (build arr60).counter = 52 ∧
    totalValues arr60 = 61 ∧ (build arr60).nodes.length = 52 ∧
    (build arr60).edges.length = 51 := by decide

/-- C5 counterexample: in the graph of `arr60` the synthetic more-node
`node-51` exists and the edge `node-0 → node-51` exists, but `node-51` never
appears as a child in the adjacency map — the map is not consistent with the
edge list for synthetic nodes. -/
theorem c5_counterexample :
    (build arr60).nodes.any (fun n => n.id == "node-51") = true ∧
    (build arr60).edges.any (fun e => e.source == "node-0" && e.target == "node-51") = true ∧
    (childrenOf (build arr60).hier "node-0").contains "node-51" = false := by decide

/-- C7 counterexample: a document nested 13 values deep hits the depth limit
(only 11 nodes are produced for its 13 values — the deepest branch is
pruned), yet the limit flag stays unset and no warning node is prepended,
refuting "the node limit or depth limit is hit → exactly one warning". -/
theorem c7_counterexample :
    (build deepJson12).limitReached = false ∧
    warningCount (withWarning (build deepJson12)) = 0 ∧
    (withWarning (build deepJson12)).length = 11 ∧
    totalValues deepJson12 = 13 := by decide

/-- C3 counterexample: parse `{"a":{"b":{"c":1}}}` and collapse `b`
(node-2), hiding `c` (node-3).  Collapsing and re-expanding the ancestor `a`
(node-1) does not restore node-3's hidden state: although node-2 is still in
CollapsedSet, its descendant node-3 ends up visible. -/
theorem c3_counterexample :
    stPre.collapsed = ["node-2"] ∧
    ("node-3" ∈ getAllDescendants stPre.hierarchy "node-1") ∧
    hiddenOf stPre "node-3" = true ∧
    (onNodeClick (onNodeClick stPre "node-1") "node-1").collapsed = ["node-2"] ∧
    hiddenOf (onNodeClick (onNodeClick stPre "node-1") "node-1") "node-3" = false := by
  decide

/-- C4 counterexample: searching for a query with zero matches on a state
with a collapsed node resets every node's logical-hidden flag to `false`,
even though node-3 is still a descendant of the still-collapsed node-2 —
the flag is not recomputed from CollapsedSet in this case. -/
theorem c4_counterexample :
    stSearchZ.matchedNodes = [] ∧
    stSearchZ.collapsed = ["node-2"] ∧
    ("node-3" ∈ getAllDescendants stSearchZ.hierarchy "node-2") ∧
    stSearchZ.nodes.any (fun n => n.id == "node-3" && !n.data.collapsedHidden && !n.hidden) = true := by
  decide

/-- C6: the synthetic more-node is created without any node-limit check.
From a traversal state two ids below the cap, traversing a 60-element array
creates the container node (counter 2999), one item node (counter 3000, the
cap), prunes the remaining items — and then still appends the "... 10 more
items" node, pushing the counter to 3001, beyond MAX_NODES. -/
theorem c6_more_node_bypasses_cap :
    (traverse (MAX_DEPTH + 2) "x" arr60 (some "node-0") 1 stNearCap).limitReached = true ∧
    (traverse (MAX_DEPTH + 2) "x" arr60 (some "node-0") 1 stNearCap).counter = 3001 ∧
    (traverse (MAX_DEPTH + 2) "x" arr60 (some "node-0") 1 stNearCap).nodes.length = 3 := by decide

/-- C8 counterexample: after a viewport-driven visibility recomputation on
the parsed 126-node document with the viewport panned far away, node-1 is
hidden but the edge `node-0 → node-1` still has `hidden = false` — the
virtualization effect rewrites only node flags, never edge flags. -/
theorem c8_counterexample :
    vizBigVirt.nodes.any (fun n => n.id == "node-1" && n.hidden) = true ∧
    vizBigVirt.edges.any (fun e => e.source == "node-0" && e.target == "node-1" && !e.hidden) = true := by
  decide

theorem contains_eq_false_of_not_mem (l : List String) (x : String) (h : x ∉ l) :
    l.contains x = false := by
  simp only [List.contains, List.elem_eq_mem, decide_eq_false_iff_not]
  exact h

theorem setErase_setInsert (l : List String) (x : String) (h : x ∉ l) :
    setErase (setInsert l x) x = l := by
  unfold setInsert setErase
  rw [contains_eq_false_of_not_mem l x h]
  simp only [Bool.false_eq_true, if_false, List.filter_append]
  have h1 : l.filter (fun y => y != x) = l := by
    rw [List.filter_eq_self]
    intro a ha
    simp only [bne_iff_ne, ne_eq]
    intro e
    exact h (e ▸ ha)
  have h2 : [x].filter (fun y => y != x) = [] := by simp
  rw [h1, h2, List.append_nil]

theorem onNodeClick_eq_of_found (st : VizState) (nid : String) (node : GraphNode)
    (hf : st.nodes.find? (fun n => n.id == nid) = some node)
    (hguard : (node.className == "" || !jsIncludes node.className "node-object") = false) :
    onNodeClick st nid =
      { st with
        collapsed :=
          if st.collapsed.contains nid then setErase st.collapsed nid
          else setInsert st.collapsed nid
        nodes := st.nodes.map
          (clickNodeUpd (getAllDescendants st.hierarchy nid) nid (st.collapsed.contains nid))
        edges := st.edges.map
          (clickEdgeUpd (getAllDescendants st.hierarchy nid) (st.collapsed.contains nid)) } := by
  unfold onNodeClick
  rw [hf]
  simp only [hguard, Bool.false_eq_true, if_false]

theorem clickNodeUpd_id (D : List String) (nid : String) (c : Bool) (n : GraphNode) :
    (clickNodeUpd D nid c n).id = n.id := by
  unfold clickNodeUpd
  split
  · rfl
  · split
    · rfl
    · rfl

theorem find?_nodes_map (l : List GraphNode) (X : String) (f : GraphNode → GraphNode)
    (hid : ∀ n, (f n).id = n.id) :
    (l.map f).find? (fun n => n.id == X) = (l.find? (fun n => n.id == X)).map f := by
  rw [List.find?_map]
  have : ((fun n : GraphNode => n.id == X) ∘ f) = (fun n : GraphNode => n.id == X) := by
    funext n
    simp [Function.comp, hid n]
  rw [this]

theorem setInsert_contains (l : List String) (x : String) :
    (setInsert l x).contains x = true := by
  unfold setInsert
  split
  · assumption
  · simp

theorem clickNodeUpd_className (D : List String) (nid : String) (c : Bool) (n : GraphNode) :
    (clickNodeUpd D nid c n).className = n.className := by
  unfold clickNodeUpd
  split
  · rfl
  · split
    · rfl
    · rfl




theorem clickEdgeUpd_pos (D : List String) (c : Bool) (e : GraphEdge)
    (h : (D.contains e.target || D.contains e.source) = true) :
    clickEdgeUpd D c e = { e with hidden := !c } := by
  unfold clickEdgeUpd
  rw [if_pos h]

theorem clickEdgeUpd_neg (D : List String) (c : Bool) (e : GraphEdge)
    (h : (D.contains e.target || D.contains e.source) = false) :
    clickEdgeUpd D c e = e := by
  unfold clickEdgeUpd
  rw [if_neg (by rw [h]; simp)]

theorem clickEdgeUpd_roundtrip (D : List String) (e : GraphEdge)
    (h : (D.contains e.target || D.contains e.source) = true → e.hidden = false) :
    clickEdgeUpd D true (clickEdgeUpd D false e) = e := by
  obtain ⟨i, s, t, ty, an, hid⟩ := e
  by_cases hc : (D.contains t || D.contains s) = true
  · rw [clickEdgeUpd_pos D false _ hc]
    rw [clickEdgeUpd_pos D true _ hc]
    have hh : hid = false := h hc
    rw [hh]
    rfl
  · have hc' : (D.contains t || D.contains s) = false := Bool.eq_false_iff.mpr hc
    rw [clickEdgeUpd_neg D false _ hc', clickEdgeUpd_neg D true _ hc']

theorem clickNodeUpd_pos_hidden (D : List String) (X : String) (c : Bool) (n : GraphNode)
    (h : D.contains n.id = true) :
    (clickNodeUpd D X c n).hidden = !c ∧
      (clickNodeUpd D X c n).data.collapsedHidden = !c := by
  unfold clickNodeUpd
  rw [if_pos h]
  exact ⟨rfl, rfl⟩

theorem clickNodeUpd_neg_hidden (D : List String) (X : String) (c : Bool) (n : GraphNode)
    (h : D.contains n.id = false) :
    (clickNodeUpd D X c n).hidden = n.hidden ∧
      (clickNodeUpd D X c n).data.collapsedHidden = n.data.collapsedHidden := by
  unfold clickNodeUpd
  rw [if_neg (by rw [h]; simp)]
  split
  · exact ⟨rfl, rfl⟩
  · exact ⟨rfl, rfl⟩

theorem clickNodeUpd_roundtrip_proj (D : List String) (X : String) (n : GraphNode)
    (h : D.contains n.id = true → n.hidden = false ∧ n.data.collapsedHidden = false) :
    ((clickNodeUpd D X true (clickNodeUpd D X false n)).id,
     (clickNodeUpd D X true (clickNodeUpd D X false n)).hidden,
     (clickNodeUpd D X true (clickNodeUpd D X false n)).data.collapsedHidden) =
      (n.id, n.hidden, n.data.collapsedHidden) := by
  have hid2 : (clickNodeUpd D X true (clickNodeUpd D X false n)).id = n.id := by
    rw [clickNodeUpd_id, clickNodeUpd_id]
  by_cases hc : D.contains n.id = true
  · obtain ⟨h1, h2⟩ := h hc
    have hcin : D.contains (clickNodeUpd D X false n).id = true := by
      rw [clickNodeUpd_id]; exact hc
    have o2 := clickNodeUpd_pos_hidden D X true (clickNodeUpd D X false n) hcin
    rw [hid2, o2.1, o2.2, h1, h2]
    rfl
  · have hc' : D.contains n.id = false := Bool.eq_false_iff.mpr hc
    have i1 := clickNodeUpd_neg_hidden D X false n hc'
    have hcin : D.contains (clickNodeUpd D X false n).id = false := by
      rw [clickNodeUpd_id]; exact hc'
    have i2 := clickNodeUpd_neg_hidden D X true (clickNodeUpd D X false n) hcin
    rw [hid2, i2.1, i2.2, i1.1, i1.2]

/-- C3 (amended): collapsing a visible container X and expanding it again
restores every node's hidden state, every edge's hidden flag and
CollapsedSet exactly, PROVIDED no descendant of X was already hidden by a
nested collapse when X was first clicked.  (The counterexample shows the
unconditional claim fails when a descendant Y was already in CollapsedSet:
re-expanding X also un-hides Y's subtree.) -/
theorem c3_amended (st : VizState) (X : String)
    (hclick : clickGuardFails st X = false)
    (hX : X ∉ st.collapsed)
    (hdesc : ∀ n ∈ st.nodes, (getAllDescendants st.hierarchy X).contains n.id = true →
      n.hidden = false ∧ n.data.collapsedHidden = false)
    (hedges : ∀ e ∈ st.edges,
      ((getAllDescendants st.hierarchy X).contains e.target ||
        (getAllDescendants st.hierarchy X).contains e.source) = true → e.hidden = false) :
    (onNodeClick (onNodeClick st X) X).collapsed = st.collapsed ∧
    (onNodeClick (onNodeClick st X) X).edges = st.edges ∧
    (onNodeClick (onNodeClick st X) X).nodes.map
        (fun n => (n.id, n.hidden, n.data.collapsedHidden)) =
      st.nodes.map (fun n => (n.id, n.hidden, n.data.collapsedHidden)) := by
  unfold clickGuardFails at hclick
  cases hf : st.nodes.find? (fun n => n.id == X) with
  | none => rw [hf] at hclick; simp at hclick
  | some node =>
  rw [hf] at hclick
  have hguard : (node.className == "" || !jsIncludes node.className "node-object") = false :=
    hclick
  have hnotin : st.collapsed.contains X = false := contains_eq_false_of_not_mem _ _ hX
  have e1 := onNodeClick_eq_of_found st X node hf hguard
  rw [hnotin] at e1
  simp only [Bool.false_eq_true, if_false] at e1
  have hf1 : ((st.nodes.map (clickNodeUpd (getAllDescendants st.hierarchy X) X false)).find?
      (fun n => n.id == X)) =
      some (clickNodeUpd (getAllDescendants st.hierarchy X) X false node) := by
    rw [find?_nodes_map _ _ _ (fun n => clickNodeUpd_id _ _ _ n), hf]
    rfl
  have hguard1 :
      ((clickNodeUpd (getAllDescendants st.hierarchy X) X false node).className == "" ||
        !jsIncludes (clickNodeUpd (getAllDescendants st.hierarchy X) X false node).className
          "node-object") = false := by
    rw [clickNodeUpd_className]
    exact hguard
  have e2 := onNodeClick_eq_of_found
    ({ st with
        collapsed := setInsert st.collapsed X
        nodes := st.nodes.map (clickNodeUpd (getAllDescendants st.hierarchy X) X false)
        edges := st.edges.map (clickEdgeUpd (getAllDescendants st.hierarchy X) false) } : VizState)
    X (clickNodeUpd (getAllDescendants st.hierarchy X) X false node) hf1 hguard1
  rw [setInsert_contains st.collapsed X] at e2
  simp only [if_true] at e2
  rw [e1, e2]
  refine ⟨?_, ?_, ?_⟩
  · show setErase (setInsert st.collapsed X) X = st.collapsed
    exact setErase_setInsert _ _ hX
  · show (st.edges.map (clickEdgeUpd (getAllDescendants st.hierarchy X) false)).map
      (clickEdgeUpd (getAllDescendants st.hierarchy X) true) = st.edges
    rw [List.map_map]
    have hpt : ∀ e ∈ st.edges,
        (clickEdgeUpd (getAllDescendants st.hierarchy X) true ∘
          clickEdgeUpd (getAllDescendants st.hierarchy X) false) e = id e :=
      fun e he => clickEdgeUpd_roundtrip _ e (hedges e he)
    rw [List.map_congr_left hpt, List.map_id]
  · show ((st.nodes.map (clickNodeUpd (getAllDescendants st.hierarchy X) X false)).map
      (clickNodeUpd (getAllDescendants st.hierarchy X) X true)).map
        (fun n => (n.id, n.hidden, n.data.collapsedHidden)) =
      st.nodes.map (fun n => (n.id, n.hidden, n.data.collapsedHidden))
    rw [List.map_map, List.map_map]
    exact List.map_congr_left (fun n hn =>
      clickNodeUpd_roundtrip_proj _ X n (hdesc n hn))

/-- C3 (amended) witness: for the parsed `{"a":{"b":1}}` with nothing
collapsed, toggling `a` twice restores collapse set, edge flags and node
hidden flags exactly. -/
theorem c3_amended_witness :
    (onNodeClick (onNodeClick (dataChangeEffect initViz (some jsonAB)) "node-1") "node-1").collapsed =
      (dataChangeEffect initViz (some jsonAB)).collapsed ∧
    (onNodeClick (onNodeClick (dataChangeEffect initViz (some jsonAB)) "node-1") "node-1").edges =
      (dataChangeEffect initViz (some jsonAB)).edges ∧
    (onNodeClick (onNodeClick (dataChangeEffect initViz (some jsonAB)) "node-1") "node-1").nodes.map
        (fun n => (n.id, n.hidden, n.data.collapsedHidden)) =
      (dataChangeEffect initViz (some jsonAB)).nodes.map
        (fun n => (n.id, n.hidden, n.data.collapsedHidden)) :=
  c3_amended (dataChangeEffect initViz (some jsonAB)) "node-1"
    (by decide) (by decide) (by decide) (by decide)

theorem searchHit_eq_contains (h : Hier) (target : String) :
    ∀ (f : Nat) (Q : List String),
      searchHit h target Q f = (bfsDesc h Q f).contains target := by
  intro f
  induction f with
  | zero =>
    intro Q
    cases Q with
    | nil => rfl
    | cons q qs => rfl
  | succ f ih =>
    intro Q
    cases Q with
    | nil => rfl
    | cons q qs =>
      show (if (childrenOf h q).contains target then true
            else searchHit h target (qs ++ childrenOf h q) f) =
        ((childrenOf h q) ++ bfsDesc h (qs ++ childrenOf h q) f).contains target
      rw [ih]
      by_cases hc : (childrenOf h q).contains target = true
      · simp only [hc, if_true]
        simp only [List.contains_eq_any_beq, List.any_append] at hc ⊢
        rw [hc]
        rfl
      · have hc' : (childrenOf h q).contains target = false := Bool.eq_false_iff.mpr hc
        simp only [hc', Bool.false_eq_true, if_false]
        simp only [List.contains_eq_any_beq, List.any_append] at hc' ⊢
        rw [hc']
        rfl

theorem searchNodeUpd_hidden (h : Hier) (collapsed expand matchIds : List String)
    (n : GraphNode) :
    (searchNodeUpd h collapsed expand matchIds n).hidden =
        searchShouldHide h collapsed expand n.id ∧
      (searchNodeUpd h collapsed expand matchIds n).data.collapsedHidden =
        searchShouldHide h collapsed expand n.id ∧
      (searchNodeUpd h collapsed expand matchIds n).id = n.id :=
  ⟨rfl, rfl, rfl⟩

theorem any_congr_mem (l : List String) (f g : String → Bool)
    (h : ∀ x ∈ l, f x = g x) : l.any f = l.any g := by
  induction l with
  | nil => rfl
  | cons a t ih =>
    show (f a || t.any f) = (g a || t.any g)
    rw [h a (List.mem_cons_self a t), ih (fun x hx => h x (List.mem_cons_of_mem a hx))]

theorem searchShouldHide_eq (h : Hier) (collapsed expand : List String) (nid : String)
    (hexp : expand.length > 0) :
    searchShouldHide h collapsed expand nid =
      (collapsed.filter (fun c => !(expand.contains c))).any
        (fun c => (getAllDescendants h c).contains nid) := by
  unfold searchShouldHide
  rw [if_pos hexp]
  rw [List.any_filter]
  apply any_congr_mem
  intro c _
  by_cases hc : expand.contains c = true
  · simp only [hc, if_true, Bool.not_true, Bool.false_and]
  · have hc' : expand.contains c = false := Bool.eq_false_iff.mpr hc
    simp only [hc', Bool.false_eq_true, if_false, Bool.not_false, Bool.true_and]
    unfold getAllDescendants
    exact searchHit_eq_contains h nid (descFuel h) [c]

theorem handleSearch_eq_of_found (st : VizState) (query : String)
    (hq : jsTrimEmpty query = false)
    (hexp : (searchExpand st.nodes st.hierarchy (jsToLower query)).length > 0) :
    handleSearch st query = { st with
      searchQuery := query
      matchedNodes := searchMatches st.nodes (jsToLower query)
      currentMatchIndex :=
        if (searchMatches st.nodes (jsToLower query)).length > 0 then 0 else -1
      collapsed := st.collapsed.filter (fun c =>
        !((searchExpand st.nodes st.hierarchy (jsToLower query)).contains c))
      nodes := st.nodes.map (searchNodeUpd st.hierarchy st.collapsed
        (searchExpand st.nodes st.hierarchy (jsToLower query))
        (searchMatches st.nodes (jsToLower query))) } := by
  unfold handleSearch
  rw [hq]
  simp only [Bool.false_eq_true, if_false]
  rw [if_pos hexp]

/-- C4 (amended): when the query is non-blank and the search finds at least
one match with ancestors (the expand set is nonempty), the re-render pass
recomputes every node's logical-hidden flag from scratch: after the search,
a node is hidden exactly when it is a BFS descendant of some id still in
CollapsedSet (the collapsed set minus the force-expanded ancestors), and
`data.collapsedHidden` agrees with `hidden`.  (The counterexample shows the
unconditional claim fails: with zero matches the pass resets every flag to
false regardless of CollapsedSet.) -/
theorem c4_amended (st : VizState) (query : String)
    (hq : jsTrimEmpty query = false)
    (hexp : (searchExpand st.nodes st.hierarchy (jsToLower query)).length > 0) :
    (handleSearch st query).collapsed =
      st.collapsed.filter (fun c =>
        !((searchExpand st.nodes st.hierarchy (jsToLower query)).contains c)) ∧
    ∀ n ∈ (handleSearch st query).nodes,
      n.hidden = ((handleSearch st query).collapsed.any
        (fun c => (getAllDescendants st.hierarchy c).contains n.id)) ∧
      n.data.collapsedHidden = n.hidden := by
  rw [handleSearch_eq_of_found st query hq hexp]
  refine ⟨rfl, ?_⟩
  intro n hn
  rcases List.mem_map.mp hn with ⟨m, hm, rfl⟩
  obtain ⟨e1, e2, e3⟩ := searchNodeUpd_hidden st.hierarchy st.collapsed
    (searchExpand st.nodes st.hierarchy (jsToLower query))
    (searchMatches st.nodes (jsToLower query)) m
  rw [e1, e2, e3]
  constructor
  · exact searchShouldHide_eq st.hierarchy st.collapsed
      (searchExpand st.nodes st.hierarchy (jsToLower query)) m.id hexp
  · rfl

/-- C4 (amended) witness: searching `c` on the collapsed `{"a":{"b":{"c":1}}}`
state force-expands the ancestors of the match and recomputes all hidden
flags from the emptied collapsed set. -/
theorem c4_amended_witness :
    (handleSearch stPre "c").collapsed =
      stPre.collapsed.filter (fun c =>
        !((searchExpand stPre.nodes stPre.hierarchy (jsToLower "c")).contains c)) ∧
    ∀ n ∈ (handleSearch stPre "c").nodes,
      n.hidden = ((handleSearch stPre "c").collapsed.any
        (fun c => (getAllDescendants stPre.hierarchy c).contains n.id)) ∧
      n.data.collapsedHidden = n.hidden :=
  c4_amended stPre "c" (by decide) (by decide)

theorem pushNode_counter (key : String) (value : Json) (pid : Option String) (st : TState) :
    (pushNode key value pid st).counter = st.counter + 1 := by
  cases pid <;> rfl

theorem pushNode_limit (key : String) (value : Json) (pid : Option String) (st : TState) :
    (pushNode key value pid st).limitReached = st.limitReached := by
  cases pid <;> rfl

theorem pushNode_nodes (key : String) (value : Json) (pid : Option String) (st : TState) :
    (pushNode key value pid st).nodes =
      st.nodes ++ [mkNodeRec key value pid (nodeId st.counter)] := by
  cases pid <;> rfl

theorem pushMoreNode_counter (cid label : String) (st : TState) :
    (pushMoreNode cid label st).counter = st.counter + 1 := rfl

theorem pushMoreNode_limit (cid label : String) (st : TState) :
    (pushMoreNode cid label st).limitReached = st.limitReached := rfl

theorem pushMoreNode_nodes (cid label : String) (st : TState) :
    (pushMoreNode cid label st).nodes =
      st.nodes ++ [mkMoreRec (nodeId st.counter) label] := rfl

theorem foldl_counter_mono {α : Type} (step : TState → α → TState)
    (h : ∀ (acc : TState) (a : α), acc.counter ≤ (step acc a).counter) :
    ∀ (l : List α) (acc : TState), acc.counter ≤ (l.foldl step acc).counter := by
  intro l
  induction l with
  | nil => intro acc; exact Nat.le_refl _
  | cons a t ih => intro acc; exact Nat.le_trans (h acc a) (ih (step acc a))


theorem traverse_counter_mono :
    ∀ (fr : Nat) (key : String) (v : Json) (pid : Option String) (d : Nat) (st : TState),
      st.counter ≤ (traverse fr key v pid d st).counter := by
  intro fr
  induction fr with
  | zero => intro _ _ _ _ _; exact Nat.le_refl _
  | succ fr ih =>
    intro key v pid d st
    have hpn : st.counter ≤ (pushNode key v pid st).counter := by
      rw [pushNode_counter]; exact Nat.le_succ _
    rw [traverse.eq_2]
    split
    · exact Nat.le_refl _
    · dsimp only
      split
      · split
        · split
          · rw [pushMoreNode_counter]
            refine Nat.le_trans ?_ (Nat.le_succ _)
            exact Nat.le_trans hpn (foldl_counter_mono _ (fun acc a => ih _ _ _ _ acc) _ _)
          · exact Nat.le_trans hpn (foldl_counter_mono _ (fun acc a => ih _ _ _ _ acc) _ _)
        · split
          · rw [pushMoreNode_counter]
            refine Nat.le_trans ?_ (Nat.le_succ _)
            exact Nat.le_trans hpn (foldl_counter_mono _ (fun acc a => ih _ _ _ _ acc) _ _)
          · exact Nat.le_trans hpn (foldl_counter_mono _ (fun acc a => ih _ _ _ _ acc) _ _)
        · exact hpn
      · exact hpn

theorem foldl_limit_mono {α : Type} (step : TState → α → TState)
    (h : ∀ (acc : TState) (a : α), acc.limitReached = true → (step acc a).limitReached = true) :
    ∀ (l : List α) (acc : TState),
      acc.limitReached = true → (l.foldl step acc).limitReached = true := by
  intro l
  induction l with
  | nil => intro acc ha; exact ha
  | cons a t ih => intro acc ha; exact ih (step acc a) (h acc a ha)

theorem traverse_limit_mono :
    ∀ (fr : Nat) (key : String) (v : Json) (pid : Option String) (d : Nat) (st : TState),
      st.limitReached = true → (traverse fr key v pid d st).limitReached = true := by
  intro fr
  induction fr with
  | zero => intro _ _ _ _ _ h; exact h
  | succ fr ih =>
    intro key v pid d st hlim
    have hpn : (pushNode key v pid st).limitReached = true := by
      rw [pushNode_limit]; exact hlim
    rw [traverse.eq_2]
    split
    · exact rfl
    · dsimp only
      split
      · split
        · split
          · rw [pushMoreNode_limit]
            exact foldl_limit_mono _ (fun acc a => ih _ _ _ _ acc) _ _ hpn
          · exact foldl_limit_mono _ (fun acc a => ih _ _ _ _ acc) _ _ hpn
        · split
          · rw [pushMoreNode_limit]
            exact foldl_limit_mono _ (fun acc a => ih _ _ _ _ acc) _ _ hpn
          · exact foldl_limit_mono _ (fun acc a => ih _ _ _ _ acc) _ _ hpn
        · exact hpn
      · exact hpn

theorem foldl_limit_src {α : Type} (step : TState → α → TState)
    (hmono : ∀ (acc : TState) (a : α), acc.counter ≤ (step acc a).counter)
    (h : ∀ (acc : TState) (a : α), (step acc a).limitReached = true →
      acc.limitReached = true ∨ MAX_NODES ≤ (step acc a).counter) :
    ∀ (l : List α) (acc : TState),
      (l.foldl step acc).limitReached = true →
        acc.limitReached = true ∨ MAX_NODES ≤ (l.foldl step acc).counter := by
  intro l
  induction l with
  | nil => intro acc ha; exact Or.inl ha
  | cons a t ih =>
    intro acc ha
    rcases ih (step acc a) ha with hl | hr
    · rcases h acc a hl with hl2 | hr2
      · exact Or.inl hl2
      · exact Or.inr (Nat.le_trans hr2 (foldl_counter_mono step hmono t (step acc a)))
    · exact Or.inr hr

theorem traverse_limit_src :
    ∀ (fr : Nat) (key : String) (v : Json) (pid : Option String) (d : Nat) (st : TState),
      d ≤ MAX_DEPTH → (traverse fr key v pid d st).limitReached = true →
        st.limitReached = true ∨ MAX_NODES ≤ (traverse fr key v pid d st).counter := by
  intro fr
  induction fr with
  | zero => intro _ _ _ _ _ _ h; exact Or.inl h
  | succ fr ih =>
    intro key v pid d st hd hlim
    rw [traverse.eq_2] at hlim ⊢
    revert hlim
    split
    · next hguard =>
      intro _
      simp only [Bool.or_eq_true, decide_eq_true_eq] at hguard
      rcases hguard with hcnt | hdep
      · exact Or.inr hcnt
      · exact absurd hdep (Nat.not_lt.mpr hd)
    · dsimp only
      split
      · next hcond =>
        simp only [Bool.and_eq_true, decide_eq_true_eq] at hcond
        have hd1 : d + 1 ≤ MAX_DEPTH := hcond.2
        have hstep : ∀ (acc : TState) (a : Nat × Json),
            (traverse fr ("[" ++ Nat.repr a.1 ++ "]") a.2 (some (nodeId st.counter)) (d + 1) acc).limitReached = true →
              acc.limitReached = true ∨
                MAX_NODES ≤ (traverse fr ("[" ++ Nat.repr a.1 ++ "]") a.2 (some (nodeId st.counter)) (d + 1) acc).counter :=
          fun acc a => ih _ a.2 _ _ acc hd1
        have hstepP : ∀ (acc : TState) (a : String × Json),
            (traverse fr a.1 a.2 (some (nodeId st.counter)) (d + 1) acc).limitReached = true →
              acc.limitReached = true ∨
                MAX_NODES ≤ (traverse fr a.1 a.2 (some (nodeId st.counter)) (d + 1) acc).counter :=
          fun acc a => ih _ a.2 _ _ acc hd1
        split
        · split
          · intro hlim
            rw [pushMoreNode_limit] at hlim
            rcases foldl_limit_src _ (fun acc a => traverse_counter_mono fr _ _ _ _ acc) hstep _ _ hlim with hl | hr
            · rw [pushNode_limit] at hl
              exact Or.inl hl
            · rw [pushMoreNode_counter]
              exact Or.inr (Nat.le_trans hr (Nat.le_succ _))
          · intro hlim
            rcases foldl_limit_src _ (fun acc a => traverse_counter_mono fr _ _ _ _ acc) hstep _ _ hlim with hl | hr
            · rw [pushNode_limit] at hl
              exact Or.inl hl
            · exact Or.inr hr
        · split
          · intro hlim
            rw [pushMoreNode_limit] at hlim
            rcases foldl_limit_src _ (fun acc a => traverse_counter_mono fr _ _ _ _ acc) hstepP _ _ hlim with hl | hr
            · rw [pushNode_limit] at hl
              exact Or.inl hl
            · rw [pushMoreNode_counter]
              exact Or.inr (Nat.le_trans hr (Nat.le_succ _))
          · intro hlim
            rcases foldl_limit_src _ (fun acc a => traverse_counter_mono fr _ _ _ _ acc) hstepP _ _ hlim with hl | hr
            · rw [pushNode_limit] at hl
              exact Or.inl hl
            · exact Or.inr hr
        · intro hlim
          rw [pushNode_limit] at hlim
          exact Or.inl hlim
      · intro hlim
        rw [pushNode_limit] at hlim
        exact Or.inl hlim

theorem mkNodeRec_className (key : String) (v : Json) (pid : Option String) (cid : String) :
    (mkNodeRec key v pid cid).className = "node-object" ∨
      (mkNodeRec key v pid cid).className = "node-primitive" := by
  unfold mkNodeRec
  dsimp only
  split
  · exact Or.inl rfl
  · exact Or.inr rfl

theorem foldl_nodes_pred {α : Type} (step : TState → α → TState) (P : GraphNode → Prop)
    (h : ∀ (acc : TState) (a : α), (∀ n ∈ acc.nodes, P n) → ∀ n ∈ (step acc a).nodes, P n) :
    ∀ (l : List α) (acc : TState),
      (∀ n ∈ acc.nodes, P n) → ∀ n ∈ (l.foldl step acc).nodes, P n := by
  intro l
  induction l with
  | nil => intro acc ha; exact ha
  | cons a t ih => intro acc ha; exact ih (step acc a) (h acc a ha)

theorem pushNode_pred (key : String) (v : Json) (pid : Option String) (st : TState)
    (P : GraphNode → Prop)
    (ha : ∀ n ∈ st.nodes, P n) (hnew : P (mkNodeRec key v pid (nodeId st.counter))) :
    ∀ n ∈ (pushNode key v pid st).nodes, P n := by
  rw [pushNode_nodes]
  intro n hn
  rcases List.mem_append.mp hn with hn1 | hn2
  · exact ha n hn1
  · rw [List.mem_singleton.mp hn2]
    exact hnew

theorem pushMoreNode_pred (cid label : String) (st : TState) (P : GraphNode → Prop)
    (ha : ∀ n ∈ st.nodes, P n) (hnew : P (mkMoreRec (nodeId st.counter) label)) :
    ∀ n ∈ (pushMoreNode cid label st).nodes, P n := by
  rw [pushMoreNode_nodes]
  intro n hn
  rcases List.mem_append.mp hn with hn1 | hn2
  · exact ha n hn1
  · rw [List.mem_singleton.mp hn2]
    exact hnew

theorem traverse_classes :
    ∀ (fr : Nat) (key : String) (v : Json) (pid : Option String) (d : Nat) (st : TState),
      (∀ n ∈ st.nodes, n.className = "node-object" ∨ n.className = "node-primitive") →
      ∀ n ∈ (traverse fr key v pid d st).nodes,
        n.className = "node-object" ∨ n.className = "node-primitive" := by
  intro fr
  induction fr with
  | zero => intro _ _ _ _ _ h; exact h
  | succ fr ih =>
    intro key v pid d st hst
    have hpn : ∀ n ∈ (pushNode key v pid st).nodes,
        n.className = "node-object" ∨ n.className = "node-primitive" :=
      pushNode_pred key v pid st _ hst (mkNodeRec_className key v pid _)
    rw [traverse.eq_2]
    split
    · exact hst
    · dsimp only
      split
      · split
        · split
          · exact pushMoreNode_pred _ _ _ _
              (foldl_nodes_pred _ _ (fun acc a => ih _ _ _ _ acc) _ _ hpn)
              (Or.inr rfl)
          · exact foldl_nodes_pred _ _ (fun acc a => ih _ _ _ _ acc) _ _ hpn
        · split
          · exact pushMoreNode_pred _ _ _ _
              (foldl_nodes_pred _ _ (fun acc a => ih _ _ _ _ acc) _ _ hpn)
              (Or.inr rfl)
          · exact foldl_nodes_pred _ _ (fun acc a => ih _ _ _ _ acc) _ _ hpn
        · exact hpn
      · exact hpn

/-- C7 (amended): exactly one warning node is prepended when the node-cap
guard fired during traversal, and none otherwise; and the guard can fire
only because of the node cap — a traversal that set the flag ends with its
counter at MAX_NODES or beyond.  Exceeding only the depth cap prunes
silently (the depth disjunct of the warning guard is unreachable from the
root call), which is what the counterexample exhibits. -/
theorem c7_amended (v : Json) :
    (warningCount (withWarning (build v)) =
      if (build v).limitReached then 1 else 0) ∧
    ((build v).limitReached = true → MAX_NODES ≤ (build v).counter) := by
  constructor
  · have hcls := traverse_classes (MAX_DEPTH + 2) "Root" v none 0 initTState
      (by intro n hn; simp [initTState] at hn)
    have hzero : warningCount (build v).nodes = 0 := by
      unfold warningCount
      rw [List.countP_eq_zero]
      intro n hn
      rcases hcls n hn with h1 | h1 <;> simp [h1]
    unfold withWarning
    cases hLim : (build v).limitReached
    · simp only [Bool.false_eq_true, if_false]
      exact hzero
    · simp only [if_true]
      unfold warningCount at hzero ⊢
      rw [List.countP_cons_of_pos _ _ (by simp [warningNode]), hzero]
  · intro hlim
    rcases traverse_limit_src (MAX_DEPTH + 2) "Root" v none 0 initTState
      (Nat.zero_le _) hlim with hl | hr
    · simp [initTState] at hl
    · exact hr
